import Mathlib

/-!
Verification of the acquisition-and-normalization core of the streamlit-play
repository against its natural-language specification.

The Python sources are shallowly embedded:
  * `clean_rank` embeds `clean_rank` from `josaa_scraper.py` (rank-cell cleansing);
  * `normalize_columns`, `cleanStage`, `fetch_josaa_orcr_data` embed the
    table-selection, schema-normalization and rank-cleaning pipeline of
    `fetch_josaa_orcr_data` in `josaa_scraper.py`;
  * `extract_spot`, `expiry_dates_list`, `fetch_nse_option_data` embed the
    extraction part of `fetch_nse_option_data` in `nse_scraper.py`;
  * `oi_by_strike`, `pcr_oi` embed the open-interest aggregation block of
    `pages/indian_indices_dashboard.py` (lines 162-190);
  * `extract_tickers`, `extract_period`, `extract_intent`, `parse_query` embed
    `nlp_parser.py`.

Machine floats are modelled by `ℚ`; a pandas missing value (`None` / `NaN`)
is modelled by `Option.none`.  Text processing is done over `List Char`;
Python `str.lower` is `Char.toLower` pointwise (the inputs of interest are
ASCII).
-/

/-- Python `str.isspace`-style whitespace test for a character (ASCII scope). -/
def isWSChar (c : Char) : Bool := c.isWhitespace

/-- Python `str.strip()` over a character list: drop whitespace on both ends. -/
def pyStrip (cs : List Char) : List Char :=
  ((cs.dropWhile isWSChar).reverse.dropWhile isWSChar).reverse

/-- Python `str.lower()` over a character list (ASCII scope). -/
def pyLower (cs : List Char) : List Char := cs.map Char.toLower

/-- Substring containment test: does `pat` occur contiguously inside `hay`?
Models Python's `pat in hay` for strings. -/
def containsSub (hay pat : List Char) : Bool :=
  match hay with
  | [] => pat.isEmpty
  | _ :: t => pat.isPrefixOf hay || containsSub t pat

/-- Worker for `removeAllSub`, structurally recursive on a fuel bound so that
it evaluates inside the kernel; `fuel ≥ cs.length` makes the `0` case
unreachable. -/
def removeAllSubAux (pat : List Char) : ℕ → List Char → List Char
  | _, [] => []
  | 0, cs => cs
  | fuel + 1, c :: rest =>
    if pat ≠ [] ∧ pat.isPrefixOf (c :: rest) then
      removeAllSubAux pat fuel (rest.drop (pat.length - 1))
    else
      c :: removeAllSubAux pat fuel rest

/-- Python `hay.replace(pat, "")` for a nonempty pattern: remove every
(left-to-right, non-overlapping) occurrence of `pat` from `cs`. -/
def removeAllSub (pat : List Char) (cs : List Char) : List Char :=
  removeAllSubAux pat cs.length cs

/-- Numeric value of a digit list, most significant first. -/
def natOfDigits (cs : List Char) : ℕ :=
  cs.foldl (fun a c => a * 10 + (c.toNat - 48)) 0

/-- Model of `pd.to_numeric(s, errors='coerce')` on a string: an optional
sign followed by a decimal integer or decimal fraction; anything else
coerces to missing (`none`).  (Scientific notation, underscores and
inf/nan spellings are outside the modelled numeral forms; the pipeline's
inputs are plain rank/price numerals.) -/
def to_numeric_chars (cs : List Char) : Option ℚ :=
  match cs with
  | [] => none
  | _ =>
    let sb : ℤ × List Char :=
      match cs with
      | '-' :: t => (-1, t)
      | '+' :: t => (1, t)
      | t => (1, t)
    let body := sb.2
    if body.contains '.' then
      let ip := body.takeWhile (fun c => c ≠ '.')
      let fp := (body.dropWhile (fun c => c ≠ '.')).drop 1
      if fp.contains '.' then none
      else if ip.all Char.isDigit ∧ fp.all Char.isDigit ∧ (ip ≠ [] ∨ fp ≠ []) then
        some (mkRat (sb.1 * (natOfDigits ip * 10 ^ fp.length + natOfDigits fp)) (10 ^ fp.length))
      else none
    else
      if body ≠ [] ∧ body.all Char.isDigit then some (mkRat (sb.1 * natOfDigits body) 1)
      else none

/-- The literal suffix `" (PwD)"` stripped by the rank cleanser. -/
def pwdPat : List Char := [' ', '(', 'P', 'w', 'D', ')']

/-- Embedding of `clean_rank` from `josaa_scraper.py` (lines 169-183).
Input `none` models `pd.isna(rank_str)`; the result `none` covers both the
explicit `None` returns and the `NaN` produced by `pd.to_numeric(...,
errors='coerce')` (both are pandas-missing and are treated identically by
the subsequent `dropna`). -/
def clean_rank (rank_str : Option String) : Option ℚ :=
  match rank_str with
  | none => none
  | some raw =>
    let s := pyStrip raw.toList
    if s = [] then none
    else
      let s2 := removeAllSub pwdPat s
      if s2.getLast? = some 'P' then to_numeric_chars s2.dropLast
      else to_numeric_chars s2

example : clean_rank (some "1234") = some 1234 := by decide
example : clean_rank (some "987P") = some 987 := by decide
example : clean_rank (some "455 (PwD)") = some 455 := by decide
example : clean_rank (some "abc") = none := by decide
example : clean_rank (some "  ") = none := by decide

/-- C5: RankValueParser (`clean_rank`) is a pure total function: null/blank
input yields null, the literal " (PwD)" suffix is stripped, a trailing 'P' is
dropped before numeric conversion (magnitude preserved), any conversion
failure yields null; with the five concrete instances from the spec.
Totality and the number-or-null result shape are inherent in the type
`Option String → Option ℚ`. -/
theorem clean_rank_spec :
    clean_rank none = none ∧
    clean_rank (some "1234") = some 1234 ∧
    clean_rank (some "987P") = some 987 ∧
    clean_rank (some "455 (PwD)") = some 455 ∧
    clean_rank (some "abc") = none ∧
    (∀ s : String, pyStrip s.toList = [] → clean_rank (some s) = none) ∧
    (∀ s : String, pyStrip s.toList ≠ [] →
      (removeAllSub pwdPat (pyStrip s.toList)).getLast? = some 'P' →
      clean_rank (some s) = to_numeric_chars (removeAllSub pwdPat (pyStrip s.toList)).dropLast) ∧
    (∀ s : String, pyStrip s.toList ≠ [] →
      (removeAllSub pwdPat (pyStrip s.toList)).getLast? ≠ some 'P' →
      clean_rank (some s) = to_numeric_chars (removeAllSub pwdPat (pyStrip s.toList))) := by
  refine ⟨rfl, by decide, by decide, by decide, by decide, ?_, ?_, ?_⟩
  · intro s h
    simp only [String.toList] at h
    simp [clean_rank, h]
  · intro s h1 h2
    simp only [String.toList] at h1 h2
    simp [clean_rank, h1, h2]
  · intro s h1 h2
    simp only [String.toList] at h1 h2
    simp [clean_rank, h1, h2]

/-- Witness for `clean_rank_spec`: the three hypothesis-bearing rules at
concrete inputs. -/
theorem clean_rank_spec_witness :
    clean_rank (some "   ") = none ∧
    clean_rank (some "12P") =
      to_numeric_chars (removeAllSub pwdPat (pyStrip (String.toList "12P"))).dropLast ∧
    clean_rank (some "77") =
      to_numeric_chars (removeAllSub pwdPat (pyStrip (String.toList "77"))) :=
  ⟨clean_rank_spec.2.2.2.2.2.1 "   " (by decide),
   clean_rank_spec.2.2.2.2.2.2.1 "12P" (by decide) (by decide),
   clean_rank_spec.2.2.2.2.2.2.2 "77" (by decide) (by decide)⟩

/-- A pandas column label: a positional integer label (as produced by
`read_html` when no header was inferred) or a string name. -/
inductive ColId where
  | pos (n : ℕ)
  | name (s : String)
deriving DecidableEq

/-- A raw table cell as parsed from HTML: `none` models a pandas `NaN`
(missing) cell, `some s` a textual cell. -/
abbrev RawCell := Option String

/-- A raw 2-D table as returned by `pd.read_html`: column labels plus rows. -/
structure Grid where
  cols : List ColId
  rows : List (List RawCell)
deriving DecidableEq

/-- Python `str(cell)`: a missing cell prints as "nan". -/
def cellStr : RawCell → String
  | none => "nan"
  | some s => s

/-- Python `str(col)` on a column label. -/
def colToStr : ColId → String
  | .pos n => toString n
  | .name s => s

/-- The `isinstance(col, int)` test on a column label. -/
def isPosCol : ColId → Bool
  | .pos _ => true
  | .name _ => false

/-- The fixed canonical column names assigned by `fetch_josaa_orcr_data`
(line 129 of josaa_scraper.py). -/
def canonicalCols : List ColId :=
  [.name "Institute", .name "Program", .name "Quota", .name "Category",
   .name "Gender", .name "OpeningRank", .name "ClosingRank"]

/-- Header-row detection of josaa_scraper.py line 141:
`iloc[0].astype(str).str.contains('Institute|Program|Quota|Rank', case=False).any()`. -/
def headerLike (row : List RawCell) : Bool :=
  row.any fun c =>
    containsSub (pyLower (cellStr c).toList) "institute".toList ||
    containsSub (pyLower (cellStr c).toList) "program".toList ||
    containsSub (pyLower (cellStr c).toList) "quota".toList ||
    containsSub (pyLower (cellStr c).toList) "rank".toList

/-- Column renaming of josaa_scraper.py lines 148-158: first matching
substring wins, unmatched labels are kept. -/
def renameCol (c : ColId) : ColId :=
  if containsSub (pyLower (colToStr c).toList) "institute".toList then .name "Institute"
  else if containsSub (pyLower (colToStr c).toList) "program".toList then .name "Program"
  else if containsSub (pyLower (colToStr c).toList) "quota".toList then .name "Quota"
  else if containsSub (pyLower (colToStr c).toList) "seat type".toList
       || containsSub (pyLower (colToStr c).toList) "category".toList then .name "Category"
  else if containsSub (pyLower (colToStr c).toList) "gender".toList then .name "Gender"
  else if containsSub (pyLower (colToStr c).toList) "opening".toList
       && containsSub (pyLower (colToStr c).toList) "rank".toList then .name "OpeningRank"
  else if containsSub (pyLower (colToStr c).toList) "closing".toList
       && containsSub (pyLower (colToStr c).toList) "rank".toList then .name "ClosingRank"
  else c

/-- Schema normalization of josaa_scraper.py lines 126-158: headerless
7-column grids get the fixed canonical names; named 7-column grids get a
header-row promotion (when the first row looks like a header) followed by
substring-based renaming.  The `[]` row case is unreachable from the fetch
pipeline (an emptiness check precedes this stage). -/
def normalize_columns (g : Grid) : Grid :=
  if g.cols.all isPosCol then
    if g.cols.length = 7 then { cols := canonicalCols, rows := g.rows } else g
  else
    if g.cols.length = 7 then
      let g1 : Grid :=
        match g.rows with
        | r :: rest =>
          if headerLike r then
            { cols := r.map fun c => ColId.name (cellStr c), rows := rest }
          else g
        | [] => g
      { cols := g1.cols.map renameCol, rows := g1.rows }
    else g

/-- C6: a selected grid with exactly 7 purely positional columns receives the
canonical names `[Institute, Program, Quota, Category, Gender, OpeningRank,
ClosingRank]` in that order, with the data rows untouched. -/
theorem normalize_columns_positional (g : Grid)
    (hpos : g.cols.all isPosCol = true) (h7 : g.cols.length = 7) :
    normalize_columns g = { cols := canonicalCols, rows := g.rows } := by
  simp [normalize_columns, hpos, h7]

/-- Witness for `normalize_columns_positional` at a concrete headerless
7-column grid. -/
theorem normalize_columns_positional_witness :
    normalize_columns
      { cols := [.pos 0, .pos 1, .pos 2, .pos 3, .pos 4, .pos 5, .pos 6],
        rows := [[some "IIT", some "CSE", some "AI", some "OPEN", some "GN",
                  some "1", some "5"]] } =
      { cols := canonicalCols,
        rows := [[some "IIT", some "CSE", some "AI", some "OPEN", some "GN",
                  some "1", some "5"]] } :=
  normalize_columns_positional _ (by decide) (by decide)

/-- Follows the spec's wording (refinement comparison for C7): the first
row's cells, matched case-insensitively against the substring set
institute / program / quota / category-or-seat-type / gender /
opening+rank / closing+rank, indicate a header row when each pattern of the
set is matched by some cell. -/
def specHeaderRowMatch (row : List RawCell) : Bool :=
  (row.any fun c => containsSub (pyLower (cellStr c).toList) "institute".toList) &&
  (row.any fun c => containsSub (pyLower (cellStr c).toList) "program".toList) &&
  (row.any fun c => containsSub (pyLower (cellStr c).toList) "quota".toList) &&
  (row.any fun c => containsSub (pyLower (cellStr c).toList) "category".toList
                 || containsSub (pyLower (cellStr c).toList) "seat type".toList) &&
  (row.any fun c => containsSub (pyLower (cellStr c).toList) "gender".toList) &&
  (row.any fun c => containsSub (pyLower (cellStr c).toList) "opening".toList
                 && containsSub (pyLower (cellStr c).toList) "rank".toList) &&
  (row.any fun c => containsSub (pyLower (cellStr c).toList) "closing".toList
                 && containsSub (pyLower (cellStr c).toList) "rank".toList)

theorem headerLike_of_specMatch {row : List RawCell}
    (h : specHeaderRowMatch row = true) : headerLike row = true := by
  simp only [specHeaderRowMatch, Bool.and_eq_true] at h
  obtain ⟨⟨⟨⟨⟨⟨h1, _⟩, _⟩, _⟩, _⟩, _⟩, _⟩ := h
  simp only [List.any_eq_true] at h1
  obtain ⟨c, hc, hmc⟩ := h1
  simp only [headerLike, List.any_eq_true]
  refine ⟨c, hc, ?_⟩
  rw [hmc]
  rfl

/-- C7: for a named 7-column grid whose first row's cells match the spec's
header substring set, the normalizer promotes that row to the column names,
drops it from the data, and renames each resulting column by the
first-match-wins substring rules (unmatched columns keep their original
name — built into `renameCol`). -/
theorem normalize_columns_promote_header (g : Grid) (r : List RawCell)
    (rest : List (List RawCell))
    (hn : g.cols.all isPosCol = false) (h7 : g.cols.length = 7)
    (hr : g.rows = r :: rest) (hh : specHeaderRowMatch r = true) :
    normalize_columns g =
      { cols := r.map fun c => renameCol (ColId.name (cellStr c)), rows := rest } := by
  simp [normalize_columns, hn, h7, hr, headerLike_of_specMatch hh]

/-- Witness for `normalize_columns_promote_header` at the spec's example
header row: the result carries exactly the canonical column names. -/
theorem normalize_columns_promote_header_witness :
    normalize_columns
      { cols := [.name "c0", .name "c1", .name "c2", .name "c3", .name "c4",
                 .name "c5", .name "c6"],
        rows := [[some "Institute Name", some "Academic Program", some "Quota",
                  some "Seat Category", some "Gender", some "Opening Rank",
                  some "Closing Rank"],
                 [some "IIT", some "CSE", some "AI", some "OPEN", some "GN",
                  some "1", some "5"]] } =
      { cols := canonicalCols,
        rows := [[some "IIT", some "CSE", some "AI", some "OPEN", some "GN",
                  some "1", some "5"]] } :=
  (normalize_columns_promote_header _ _ _ (by decide) (by decide) rfl
    (by decide)).trans (by decide)

/-- A cell of the (partially cleaned) JoSAA result frame: either still the raw
parsed cell, or the output of `clean_rank` on a rank column. -/
inductive CellVal where
  | raw (c : RawCell)
  | rank (r : Option ℚ)
deriving DecidableEq

/-- A pandas DataFrame as returned by `fetch_josaa_orcr_data`. -/
structure Frame where
  cols : List ColId
  rows : List (List CellVal)
deriving DecidableEq

/-- pandas `isna` on a result cell: missing raw cells, and `None`/`NaN`
outputs of the rank cleanser, are missing. -/
def cellIsNa : CellVal → Bool
  | .raw none => true
  | .raw (some _) => false
  | .rank none => true
  | .rank (some _) => false

/-- Missingness (`isna`) of the cell at position `i` of a row (an absent position counts
as missing). -/
def cellNaAt (row : List CellVal) (i : ℕ) : Bool :=
  match row[i]? with
  | some c => cellIsNa c
  | none => true

/-- The cleanser `clean_rank` applied to one cell (josaa_scraper.py lines 185-188).  A
cell that is already a cleaned rank value can only arise from a repeated
application, which the pipeline never performs; it is passed through. -/
def cleanCell : CellVal → CellVal
  | .raw c => .rank (clean_rank c)
  | .rank r => .rank r

/-- Model of `data_df[name] = data_df[name].apply(clean_rank)`: apply the cleanser at
every column position labelled `name`. -/
def applyCleanCol (cols : List ColId) (name : String)
    (rows : List (List CellVal)) : List (List CellVal) :=
  rows.map fun row =>
    row.mapIdx fun i c => if cols[i]? = some (.name name) then cleanCell c else c

/-- Is some cell of `row` sitting in a column labelled `name` missing?
(The per-column test of `dropna(subset=..., how='any')`.) -/
def naAtLabel (cols : List ColId) (name : String) (row : List CellVal) : Bool :=
  (List.range cols.length).any fun i =>
    decide (cols[i]? = some (.name name)) && cellNaAt row i

/-- Rank cleaning and row dropping of josaa_scraper.py lines 185-192: clean
the two rank columns when present, then — when a ClosingRank column exists —
`dropna(subset=['ClosingRank', 'OpeningRank'], how='any')`.  When ClosingRank
exists but OpeningRank does not, the `subset` lookup raises a `KeyError`
(modelled as `.error`), which the enclosing handler turns into the empty
sentinel frame. -/
def cleanStage (g : Grid) : Except Unit Frame :=
  let f0 : List (List CellVal) := g.rows.map fun row => row.map CellVal.raw
  let r1 := if ColId.name "OpeningRank" ∈ g.cols
            then applyCleanCol g.cols "OpeningRank" f0 else f0
  let r2 := if ColId.name "ClosingRank" ∈ g.cols
            then applyCleanCol g.cols "ClosingRank" r1 else r1
  if ColId.name "ClosingRank" ∈ g.cols then
    if ColId.name "OpeningRank" ∈ g.cols then
      .ok { cols := g.cols,
            rows := r2.filter fun row =>
              !naAtLabel g.cols "ClosingRank" row &&
              !naAtLabel g.cols "OpeningRank" row }
    else .error ()
  else .ok { cols := g.cols, rows := r2 }

/-- The outcome of the two network calls and the HTML table parse of
`fetch_josaa_orcr_data`: the error constructors model a network failure, a
timeout, and a missing hidden form token (a `TypeError` on `None['value']`);
`ok tables` models a successful POST whose response parsed into `tables`. -/
inductive JosaaOutcome where
  | netErr
  | timeoutErr
  | missingToken
  | ok (tables : List Grid)

/-- The sentinel `pd.DataFrame()` returned on every failure path of
`fetch_josaa_orcr_data`. -/
def emptyFrame : Frame := { cols := [], rows := [] }

/-- Embedding of `fetch_josaa_orcr_data` (josaa_scraper.py): every failure
outcome returns the empty sentinel frame; a successful parse selects the
first table with more than 5 columns, returns the sentinel when none
qualifies or when the selected table has no rows, and otherwise runs schema
normalization followed by rank cleaning. -/
def fetch_josaa_orcr_data (o : JosaaOutcome) : Frame :=
  match o with
  | .ok tables =>
    match tables.find? fun g => decide (5 < g.cols.length) with
    | none => emptyFrame
    | some g =>
      if g.rows = [] then emptyFrame
      else
        match cleanStage (normalize_columns g) with
        | .ok fr => fr
        | .error _ => emptyFrame
  | _ => emptyFrame

theorem cleanStage_rows_nonnull (g : Grid) (fr : Frame)
    (h : cleanStage g = .ok fr)
    (hcc : ColId.name "ClosingRank" ∈ fr.cols) :
    ∀ row ∈ fr.rows, ∀ i : ℕ,
      (fr.cols[i]? = some (.name "ClosingRank") ∨
       fr.cols[i]? = some (.name "OpeningRank")) →
      cellNaAt row i = false := by
  simp only [cleanStage] at h
  by_cases h1 : ColId.name "ClosingRank" ∈ g.cols
  · by_cases h2 : ColId.name "OpeningRank" ∈ g.cols
    · rw [if_pos h1, if_pos h2] at h
      injection h with h
      subst h
      intro row hrow i hi
      have hmem := (List.mem_filter.mp hrow).2
      simp only [Bool.and_eq_true, Bool.not_eq_true'] at hmem
      have hlt : i < g.cols.length := by
        rcases hi with hi | hi <;>
          exact (List.getElem?_eq_some.mp hi).1
      have key : ∀ nm : String, g.cols[i]? = some (.name nm) →
          naAtLabel g.cols nm row = false → cellNaAt row i = false := by
        intro nm hnm hna
        by_contra hcontra
        rw [Bool.not_eq_false] at hcontra
        have ht : naAtLabel g.cols nm row = true := by
          simp only [naAtLabel, List.any_eq_true]
          exact ⟨i, List.mem_range.mpr hlt, by simp [hnm, hcontra]⟩
        rw [ht] at hna
        exact Bool.noConfusion hna
      rcases hi with hi | hi
      · exact key _ hi hmem.1
      · exact key _ hi hmem.2
    · rw [if_pos h1, if_neg h2] at h
      exact absurd h (by simp)
  · rw [if_neg h1] at h
    injection h with h
    subst h
    exact absurd hcc h1

/-- C10: after rank cleansing, whenever a ClosingRank column exists in the
returned admissions dataset, every returned row is non-missing at every
OpeningRank and ClosingRank column position: a record whose rank cell fails
to parse is removed entirely rather than returned with a null rank. -/
theorem fetch_josaa_rank_rows_nonnull (o : JosaaOutcome)
    (hc : ColId.name "ClosingRank" ∈ (fetch_josaa_orcr_data o).cols) :
    ∀ row ∈ (fetch_josaa_orcr_data o).rows, ∀ i : ℕ,
      ((fetch_josaa_orcr_data o).cols[i]? = some (.name "ClosingRank") ∨
       (fetch_josaa_orcr_data o).cols[i]? = some (.name "OpeningRank")) →
      cellNaAt row i = false := by
  match o with
  | .netErr => simp [fetch_josaa_orcr_data, emptyFrame] at hc
  | .timeoutErr => simp [fetch_josaa_orcr_data, emptyFrame] at hc
  | .missingToken => simp [fetch_josaa_orcr_data, emptyFrame] at hc
  | .ok tables =>
    simp only [fetch_josaa_orcr_data] at hc ⊢
    cases hfind : tables.find? fun g => decide (5 < g.cols.length) with
    | none =>
      rw [hfind] at hc
      simp [emptyFrame] at hc
    | some g =>
      rw [hfind] at hc
      dsimp only at hc ⊢
      by_cases hemp : g.rows = []
      · rw [if_pos hemp] at hc
        simp [emptyFrame] at hc
      · rw [if_neg hemp] at hc ⊢
        cases hcs : cleanStage (normalize_columns g) with
        | error e =>
          rw [hcs] at hc
          simp [emptyFrame] at hc
        | ok fr =>
          rw [hcs] at hc
          dsimp only at hc ⊢
          exact cleanStage_rows_nonnull _ _ hcs hc

/-- Witness for `fetch_josaa_rank_rows_nonnull`: a concrete fetched table
with one parseable-rank row and one row whose OpeningRank fails to parse;
the surviving row is non-missing at the ClosingRank position. -/
theorem fetch_josaa_rank_rows_nonnull_witness :
    cellNaAt [CellVal.raw (some "IIT"), .raw (some "CSE"), .raw (some "AI"),
              .raw (some "OPEN"), .raw (some "GN"), .rank (some 1),
              .rank (some 5)] 6 = false :=
  fetch_josaa_rank_rows_nonnull
    (.ok [{ cols := [.pos 0, .pos 1, .pos 2, .pos 3, .pos 4, .pos 5, .pos 6],
            rows := [[some "IIT", some "CSE", some "AI", some "OPEN",
                      some "GN", some "1", some "5"],
                     [some "X", some "Y", some "Z", some "W", some "V",
                      some "abc", some "9"]] }])
    (by decide) _ (by decide) 6 (Or.inl (by decide))

/-- Month-abbreviation lookup of `datetime.strptime`'s `%b` directive
(case-insensitive). -/
def monthAbbrevNum (cs : List Char) : Option ℕ :=
  if pyLower cs = "jan".toList then some 1
  else if pyLower cs = "feb".toList then some 2
  else if pyLower cs = "mar".toList then some 3
  else if pyLower cs = "apr".toList then some 4
  else if pyLower cs = "may".toList then some 5
  else if pyLower cs = "jun".toList then some 6
  else if pyLower cs = "jul".toList then some 7
  else if pyLower cs = "aug".toList then some 8
  else if pyLower cs = "sep".toList then some 9
  else if pyLower cs = "oct".toList then some 10
  else if pyLower cs = "nov".toList then some 11
  else if pyLower cs = "dec".toList then some 12
  else none

/-- Value of an all-digit component, or `none`. -/
def digitsVal (cs : List Char) : Option ℕ :=
  if cs ≠ [] ∧ cs.all Char.isDigit then some (natOfDigits cs) else none

/-- Gregorian leap-year rule, as applied by `datetime`. -/
def isLeapYear (y : ℕ) : Bool :=
  decide (y % 4 = 0) && (decide (y % 100 ≠ 0) || decide (y % 400 = 0))

/-- Days in a month, as validated by the `datetime` constructor. -/
def daysInMonth (m y : ℕ) : ℕ :=
  if m = 2 then (if isLeapYear y then 29 else 28)
  else if m = 4 ∨ m = 6 ∨ m = 9 ∨ m = 11 then 30
  else 31

/-- Model of `datetime.strptime(s, '%d-%b-%Y')` as a year-month-day triple: a 1-2
digit day in 1..31, a month abbreviation, an exactly-4-digit year ≥ 1,
validated against the month length; `none` models the `ValueError` raised
on any mismatch. -/
def parse_strptime_dby (s : String) : Option (ℕ × ℕ × ℕ) :=
  match s.toList.splitOn '-' with
  | [dcs, mcs, ycs] =>
    match digitsVal dcs, monthAbbrevNum mcs, digitsVal ycs with
    | some d, some m, some y =>
      if dcs.length ≤ 2 ∧ 1 ≤ d ∧ d ≤ 31 ∧ ycs.length = 4 ∧ 1 ≤ y ∧
         d ≤ daysInMonth m y then
        some (y, m, d)
      else none
    | _, _, _ => none
  | _ => none

/-- Comparison key of a parsed expiry date: `datetime` objects compare by
the (year, month, day) tuple, encoded here as one natural number. -/
def dateKey (s : String) : ℕ :=
  match parse_strptime_dby s with
  | some (y, m, d) => (y * 100 + m) * 100 + d
  | none => 0

/-- The sort order used by `sorted(..., key=lambda d: strptime(d, ...))`. -/
def expLE (a b : String) : Prop := dateKey a ≤ dateKey b

instance : DecidableRel expLE :=
  fun a b => inferInstanceAs (Decidable (dateKey a ≤ dateKey b))

instance : IsTotal String expLE :=
  ⟨fun a b => Nat.le_total (dateKey a) (dateKey b)⟩

instance : IsTrans String expLE :=
  ⟨fun _ _ _ h1 h2 => Nat.le_trans h1 h2⟩

/-- Embedding of nse_scraper.py line 83:
`sorted(list(expiry_dates_set), key=lambda d: datetime.strptime(d, '%d-%b-%Y'))`.
The Python `set` enumerates in unspecified order, modelled by `List.dedup`;
`strptime` raising on an unparsable string aborts the enclosing `try`
(modelled by `none`). -/
def expiry_dates_list (names : List String) : Option (List String) :=
  let ds := names.dedup
  if ds.all fun s => (parse_strptime_dby s).isSome then
    some (List.insertionSort expLE ds)
  else none

/-- The call-side or put-side payload of one per-strike record:
`underlying = none` models an absent `underlyingValue` key, `some v` a
present key whose value `v` is null (`none`) or a number; `fields` carries
the remaining payload opaquely. -/
structure SideData where
  underlying : Option (Option ℚ)
  fields : List (String × String)
deriving DecidableEq

/-- One per-strike record of `records.data`: `pe`/`ce` are `none` when the
key is absent or its value is falsy (an empty object). -/
structure NseRecord where
  expiryDate : String
  pe : Option SideData
  ce : Option SideData
deriving DecidableEq

/-- The `records` object: `data = none` models an absent `data` key,
`underlyingValue = none` an absent top-level `underlyingValue` key (whose
access raises a `KeyError`). -/
structure RecordsObj where
  data : Option (List NseRecord)
  underlyingValue : Option (Option ℚ)
deriving DecidableEq

/-- A parsed NSE JSON document; `records = none` models a missing or falsy
`records` entry. -/
structure NseDoc where
  records : Option RecordsObj

/-- Outcome of the NSE network/JSON stage: request failure, JSON decode
failure, or a parsed document. -/
inductive NseOutcome where
  | netErr
  | jsonErr
  | ok (doc : NseDoc)

/-- Python falsiness of an optional number: `None` and `0` are falsy. -/
def pyFalsyOpt (x : Option ℚ) : Bool :=
  decide (x = none) || decide (x = some 0)

/-- Python truthiness of an optional number. -/
def pyTruthyOpt (x : Option ℚ) : Bool := !pyFalsyOpt x

/-- The spot-price assignment performed by one loop iteration (nse_scraper.py
lines 75-78): if `PE` is present with an `underlyingValue` key, its value is
assigned (even when null); otherwise, if `CE` is present with the key, that
value is assigned; otherwise no assignment happens. -/
def recordSpotAssign (r : NseRecord) : Option (Option ℚ) :=
  match r.pe with
  | some side =>
    match side.underlying with
    | some v => some v
    | none =>
      match r.ce with
      | some cside => cside.underlying
      | none => none
  | none =>
    match r.ce with
    | some cside => cside.underlying
    | none => none

/-- One iteration of the spot-price loop. -/
def stepSpot (spot : Option ℚ) (r : NseRecord) : Option ℚ :=
  match recordSpotAssign r with
  | some v => v
  | none => spot

/-- The spot-price loop over all records (`spot_price` starts as `None`). -/
def spot_price_loop (recs : List NseRecord) : Option ℚ :=
  recs.foldl stepSpot none

/-- Spot-price extraction of nse_scraper.py lines 69-80: run the assignment
loop when the record list is present and nonempty, then — if the result is
falsy — fall back to the top-level `records['underlyingValue']`, whose
access raises a `KeyError` (modelled `.error`) when the key is absent, and
which is only assigned when truthy. -/
def extract_spot (ro : RecordsObj) : Except Unit (Option ℚ) :=
  match ro.data with
  | some recs =>
    if recs = [] then .ok none
    else
      let s := spot_price_loop recs
      if pyFalsyOpt s then
        match ro.underlyingValue with
        | none => .error ()
        | some uv => if pyTruthyOpt uv then .ok uv else .ok s
      else .ok s
  | none => .ok none

/-- Follows the spec's words (for comparison with `extract_spot`): within a
record, the put side's non-null value is preferred, else the call side's
non-null value. -/
def specRecordNonNull (r : NseRecord) : Option ℚ :=
  match r.pe with
  | some side =>
    match side.underlying with
    | some (some v) => some v
    | _ =>
      match r.ce with
      | some cside =>
        match cside.underlying with
        | some (some v) => some v
        | _ => none
      | none => none
  | none =>
    match r.ce with
    | some cside =>
      match cside.underlying with
      | some (some v) => some v
      | _ => none
    | none => none

/-- Follows the spec's words (for comparison with `extract_spot`): the FIRST
non-null underlying value found while scanning the records wins and is never
overwritten; the top-level underlying field is the final fallback. -/
def specFirstSpot (ro : RecordsObj) : Option ℚ :=
  match (ro.data.getD []).findSome? specRecordNonNull with
  | some v => some v
  | none => ro.underlyingValue.getD none

/-- A flattened call-side or put-side row: the side payload tagged with its
record's expiry (`ce_data.update(common_data)`). -/
structure FlatRow where
  side : SideData
  expiryDate : String
deriving DecidableEq

/-- The call-side flattening loop (nse_scraper.py lines 89-94). -/
def flattenCalls (recs : List NseRecord) : List FlatRow :=
  recs.filterMap fun r =>
    r.ce.map fun side => { side := side, expiryDate := r.expiryDate }

/-- The put-side flattening loop (nse_scraper.py lines 96-99). -/
def flattenPuts (recs : List NseRecord) : List FlatRow :=
  recs.filterMap fun r =>
    r.pe.map fun side => { side := side, expiryDate := r.expiryDate }

/-- The 4-tuple returned by `fetch_nse_option_data`. -/
structure NseResult where
  spot : Option ℚ
  expiries : List String
  calls : List FlatRow
  puts : List FlatRow
deriving DecidableEq

/-- The failure sentinel `(None, [], pd.DataFrame(), pd.DataFrame())`
returned on every failure path of `fetch_nse_option_data`. -/
def nse_failure : NseResult :=
  { spot := none, expiries := [], calls := [], puts := [] }

/-- Embedding of `fetch_nse_option_data` (nse_scraper.py): network and JSON
failures, a missing/falsy `records` entry, a `KeyError` during spot
extraction and a `ValueError` during expiry sorting all return the fixed
sentinel; otherwise the extracted spot, sorted expiries and the two
flattened record lists are returned. -/
def fetch_nse_option_data (o : NseOutcome) : NseResult :=
  match o with
  | .ok doc =>
    match doc.records with
    | none => nse_failure
    | some ro =>
      let recs := ro.data.getD []
      match extract_spot ro with
      | .error _ => nse_failure
      | .ok spot =>
        match expiry_dates_list (recs.map fun r => r.expiryDate) with
        | none => nse_failure
        | some exps =>
          { spot := spot, expiries := exps,
            calls := flattenCalls recs, puts := flattenPuts recs }
  | _ => nse_failure

theorem foldl_stepSpot (recs : List NseRecord) (s : Option ℚ) :
    recs.foldl stepSpot s =
      ((recs.filterMap recordSpotAssign).getLast?).getD s := by
  induction recs generalizing s with
  | nil => rfl
  | cons r t ih =>
    rw [List.foldl_cons, List.filterMap_cons]
    cases h : recordSpotAssign r with
    | none =>
      rw [ih]
      have hs : stepSpot s r = s := by rw [stepSpot, h]
      rw [hs]
    | some v =>
      have hs : stepSpot s r = v := by rw [stepSpot, h]
      rw [hs, ih]
      cases hl : t.filterMap recordSpotAssign with
      | nil => rfl
      | cons b l =>
        rw [List.getLast?_cons_cons]
        obtain ⟨x, hx⟩ :=
          Option.isSome_iff_exists.mp
            (List.getLast?_isSome.mpr (List.cons_ne_nil b l))
        rw [hx]
        rfl

/-- C1 counterexample: the claim says the FIRST non-null underlying value
wins and is never overwritten, but the loop of nse_scraper.py lines 73-78
has no once-found guard: with two records whose put sides carry underlying
values 100 and 200, the code extracts 200 (the last) while the claim's
first-wins reading predicts 100. -/
theorem extract_spot_not_first_value :
    extract_spot
      { data := some
          [{ expiryDate := "30-Jan-2024",
             pe := some { underlying := some (some 100), fields := [] },
             ce := none },
           { expiryDate := "30-Jan-2024",
             pe := some { underlying := some (some 200), fields := [] },
             ce := none }],
        underlyingValue := some (some 50) } = .ok (some 200) ∧
    specFirstSpot
      { data := some
          [{ expiryDate := "30-Jan-2024",
             pe := some { underlying := some (some 100), fields := [] },
             ce := none },
           { expiryDate := "30-Jan-2024",
             pe := some { underlying := some (some 200), fields := [] },
             ce := none }],
        underlyingValue := some (some 50) } = some 100 :=
  ⟨rfl, rfl⟩

/-- C1 amended: the spot price is the value of the LAST record carrying an
underlying key (put side preferred over call side within a record; every
such record overwrites the previous value, a null value included), and the
top-level underlying field is assigned only when the loop result is falsy
(null or 0) and the top-level value itself is truthy. -/
theorem extract_spot_last_value_wins :
    (∀ ro : RecordsObj, ∀ recs : List NseRecord, ro.data = some recs →
      ∀ v : Option ℚ, (recs.filterMap recordSpotAssign).getLast? = some v →
      pyFalsyOpt v = false → extract_spot ro = .ok v) ∧
    (∀ ro : RecordsObj, ∀ recs : List NseRecord, ro.data = some recs →
      recs ≠ [] → pyFalsyOpt (spot_price_loop recs) = true →
      ∀ uv : Option ℚ, ro.underlyingValue = some uv → pyTruthyOpt uv = true →
      extract_spot ro = .ok uv) := by
  constructor
  · intro ro recs hdata v hlast hfalsy
    have hne : recs ≠ [] := by
      intro hnil
      rw [hnil] at hlast
      exact Option.noConfusion hlast
    have hloop : spot_price_loop recs = v := by
      rw [spot_price_loop, foldl_stepSpot, hlast]
      rfl
    simp only [extract_spot, hdata]
    rw [if_neg hne, hloop, hfalsy]
    rfl
  · intro ro recs hdata hne hfalsy uv huv htruthy
    simp only [extract_spot, hdata, huv]
    rw [if_neg hne, hfalsy, htruthy]
    rfl

/-- Witness for `extract_spot_last_value_wins`: both conjuncts applied at
concrete record lists. -/
theorem extract_spot_last_value_wins_witness :
    extract_spot
      { data := some
          [{ expiryDate := "e", pe := some { underlying := some (some 7), fields := [] },
             ce := none }],
        underlyingValue := none } = .ok (some 7) ∧
    extract_spot
      { data := some
          [{ expiryDate := "e", pe := some { underlying := some none, fields := [] },
             ce := none }],
        underlyingValue := some (some 9) } = .ok (some 9) :=
  ⟨extract_spot_last_value_wins.1 _ _ rfl (some 7) (by decide) (by decide),
   extract_spot_last_value_wins.2 _ _ rfl (by decide) (by decide) (some 9) rfl
     (by decide)⟩

/-- C2 counterexample: the claim says every failure mode returns a typed
failure distinguishable from a successful result with zero rows, but a
network failure returns exactly the same value as a successful fetch whose
parsed body has zero records (NSE client) or an empty selected table (JoSAA
client). -/
theorem fetch_failure_indistinguishable_from_zero_rows :
    fetch_nse_option_data .netErr =
      fetch_nse_option_data
        (.ok { records := some { data := some [], underlyingValue := some (some 5) } }) ∧
    fetch_josaa_orcr_data .netErr =
      fetch_josaa_orcr_data
        (.ok [{ cols := [.pos 0, .pos 1, .pos 2, .pos 3, .pos 4, .pos 5, .pos 6],
                rows := [] }]) :=
  ⟨rfl, rfl⟩

/-- C2 amended: every failure mode of the two clients (network error,
timeout, missing token, unparseable body) returns its client's fixed
sentinel value and never raises an uncaught fault (the embeddings are total
functions into the result types), but the sentinel coincides with the value
returned for a reachable zero-record success, so failure is NOT
distinguishable from "source reachable but zero matches". -/
theorem fetch_failures_return_sentinels :
    (∀ o : NseOutcome, (o = .netErr ∨ o = .jsonErr) →
      fetch_nse_option_data o = nse_failure) ∧
    (∀ o : JosaaOutcome,
      (o = .netErr ∨ o = .timeoutErr ∨ o = .missingToken) →
      fetch_josaa_orcr_data o = emptyFrame) := by
  constructor
  · rintro o (rfl | rfl) <;> rfl
  · rintro o (rfl | rfl | rfl) <;> rfl

/-- Witness for `fetch_failures_return_sentinels` at concrete failure
outcomes. -/
theorem fetch_failures_return_sentinels_witness :
    fetch_nse_option_data .jsonErr = nse_failure ∧
    fetch_josaa_orcr_data .timeoutErr = emptyFrame :=
  ⟨fetch_failures_return_sentinels.1 _ (Or.inr rfl),
   fetch_failures_return_sentinels.2 _ (Or.inr (Or.inl rfl))⟩

/-- C8: for every record list all of whose expiry strings parse in the fixed
day-monthabbrev-year format, the returned expiry sequence contains each
distinct expiry string exactly once (it is duplicate-free and has the same
members as the input) and is sorted ascending by the parsed calendar date,
not by lexicographic string order. -/
theorem expiry_dates_list_sorted_dedup (names : List String)
    (hall : ∀ s ∈ names, (parse_strptime_dby s).isSome) :
    ∃ l, expiry_dates_list names = some l ∧ l.Nodup ∧
      (∀ s, s ∈ l ↔ s ∈ names) ∧ l.Pairwise expLE := by
  have hcond : (names.dedup.all fun s => (parse_strptime_dby s).isSome) = true := by
    rw [List.all_eq_true]
    intro s hs
    exact hall s (List.mem_dedup.mp hs)
  refine ⟨List.insertionSort expLE names.dedup, ?_, ?_, ?_, ?_⟩
  · rw [expiry_dates_list]
    rw [if_pos hcond]
  · exact ((List.perm_insertionSort expLE _).nodup_iff).mpr (List.nodup_dedup names)
  · intro s
    rw [List.mem_insertionSort, List.mem_dedup]
  · exact List.sorted_insertionSort expLE _

/-- Witness for `expiry_dates_list_sorted_dedup`: a concrete list with a
duplicate and out-of-lexicographic date order; "30-Jan-2024" sorts before
"05-Feb-2024" although it is lexicographically larger. -/
theorem expiry_dates_list_sorted_dedup_witness :
    expiry_dates_list ["05-Feb-2024", "30-Jan-2024", "05-Feb-2024"] =
      some ["30-Jan-2024", "05-Feb-2024"] ∧
    (∃ l, expiry_dates_list ["05-Feb-2024", "30-Jan-2024", "05-Feb-2024"] = some l ∧
      l.Nodup ∧
      (∀ s, s ∈ l ↔ s ∈ ["05-Feb-2024", "30-Jan-2024", "05-Feb-2024"]) ∧
      l.Pairwise expLE) :=
  ⟨by decide,
   expiry_dates_list_sorted_dedup _ (by decide)⟩

/-- A cell of the NSE options frame as seen by `pd.to_numeric(...,
errors='coerce')`: either it coerces to a number or it does not (the
coercion itself is the abstracted pandas primitive). -/
inductive PCell where
  | num (q : ℚ)
  | bad
deriving DecidableEq

/-- Coercion `pd.to_numeric(c, errors='coerce')` on one cell; `none` is `NaN`. -/
def to_numeric : PCell → Option ℚ
  | .num q => some q
  | .bad => none

/-- One input row of the open-interest block: the `strikePrice` and
`openInterest` cells of a call-side or put-side row. -/
structure OiInRow where
  strikePrice : PCell
  openInterest : PCell
deriving DecidableEq

/-- Lines 162-168 of indian_indices_dashboard.py: coerce `strikePrice`
(`NaN` preserved) and `openInterest` (followed by `.fillna(0)`). -/
def prepSide (rows : List OiInRow) : List (Option ℚ × ℚ) :=
  rows.map fun r => (to_numeric r.strikePrice, (to_numeric r.openInterest).getD 0)

/-- Model of `pd.merge(call_oi_data, put_oi_data, on='strikePrice', how='outer')`
(line 174).  pandas matches `NaN` join keys with each other, so the key is
the coerced `Option ℚ` with `none` an ordinary key value: each left row
pairs with every right row of equal key (one row with an absent right side
when unmatched), and unmatched right rows are appended.  Each produced
triple is (key, call OI if present, put OI if present); the row order prior
to the subsequent sort is irrelevant to the results proved. -/
def mergeOuter (L R : List (Option ℚ × ℚ)) :
    List (Option ℚ × Option ℚ × Option ℚ) :=
  (L.flatMap fun l =>
    match R.filter fun r => decide (r.1 = l.1) with
    | [] => [(l.1, some l.2, none)]
    | ms => ms.map fun r => (l.1, some l.2, some r.2)) ++
  ((R.filter fun r => !(L.any fun l => decide (l.1 = r.1))).map
    fun r => (r.1, none, some r.2))

/-- The `.fillna(0)` on the merged frame (line 174): fills a `NaN` strike key
and the missing side's OI with 0. -/
def fill0 (t : Option ℚ × Option ℚ × Option ℚ) : ℚ × ℚ × ℚ :=
  (t.1.getD 0, t.2.1.getD 0, t.2.2.getD 0)

/-- The ascending-strike order of `sort_values(by='strikePrice')`. -/
def rowLE (a b : ℚ × ℚ × ℚ) : Prop := a.1 ≤ b.1

instance : DecidableRel rowLE :=
  fun a b => inferInstanceAs (Decidable (a.1 ≤ b.1))

instance : IsTotal (ℚ × ℚ × ℚ) rowLE := ⟨fun a b => le_total a.1 b.1⟩

instance : IsTrans (ℚ × ℚ × ℚ) rowLE := ⟨fun _ _ _ => le_trans⟩

/-- The `oi_by_strike` frame of indian_indices_dashboard.py lines 162-175:
coerce both sides, outer-merge on strike, `fillna(0)`, sort ascending by
strike (rows are (strike, Call OI, Put OI)).  pandas `sort_values` uses an
unstable sort; insertion sort models it, and none of the proved results
depend on the relative order of equal strikes. -/
def oi_by_strike (calls puts : List OiInRow) : List (ℚ × ℚ × ℚ) :=
  List.insertionSort rowLE ((mergeOuter (prepSide calls) (prepSide puts)).map fill0)

/-- The total `oi_by_strike['Call OI'].sum()` (line 182). -/
def total_call_oi (calls puts : List OiInRow) : ℚ :=
  ((oi_by_strike calls puts).map fun t => t.2.1).sum

/-- The total `oi_by_strike['Put OI'].sum()` (line 183). -/
def total_put_oi (calls puts : List OiInRow) : ℚ :=
  ((oi_by_strike calls puts).map fun t => t.2.2).sum

/-- The displayed put-call-ratio metric: a number, or the sentinel
"N/A (Call OI is 0)" string. -/
inductive PcrValue where
  | val (q : ℚ)
  | notAvailable
deriving DecidableEq

/-- Lines 185-189: the ratio is computed only when the call-side total is
strictly positive; otherwise the sentinel is displayed. -/
def pcr_oi (calls puts : List OiInRow) : PcrValue :=
  if 0 < total_call_oi calls puts then
    .val (total_put_oi calls puts / total_call_oi calls puts)
  else .notAvailable

/-- The coerced strike keys of one input side. -/
def sideKeys (rows : List OiInRow) : List (Option ℚ) :=
  (prepSide rows).map fun p => p.1

/-- The openInterest recorded on one prepared side for strike key `k`,
0 when the key is absent. -/
def lookupOI (side : List (Option ℚ × ℚ)) (k : Option ℚ) : ℚ :=
  ((side.find? fun r => decide (r.1 = k)).map fun r => r.2).getD 0

/-- C3 counterexample: with calls `[(strike 100, OI 0), (unparseable
strike, OI 5)]` and no puts, the code keeps the unparseable-strike row
(with strike filled to 0) instead of excluding it — the output has 2 rows
while the distinct parseable strikes of either input number 1 — and the
strike-100 row has callOI 0 although strike 100 is present in the calls
input, falsifying the "0 exactly when absent" biconditional. -/
theorem oi_by_strike_claim_cex :
    oi_by_strike [{ strikePrice := .num 100, openInterest := .num 0 },
                  { strikePrice := .bad, openInterest := .num 5 }] [] =
      [(0, 5, 0), (100, 0, 0)] ∧
    (oi_by_strike [{ strikePrice := .num 100, openInterest := .num 0 },
                   { strikePrice := .bad, openInterest := .num 5 }] []).length = 2 ∧
    (((sideKeys [{ strikePrice := .num 100, openInterest := .num 0 },
                 { strikePrice := .bad, openInterest := .num 5 }]).filterMap id ++
      (sideKeys ([] : List OiInRow)).filterMap id).dedup).length = 1 ∧
    (100, 0, 0) ∈
      oi_by_strike [{ strikePrice := .num 100, openInterest := .num 0 },
                    { strikePrice := .bad, openInterest := .num 5 }] [] ∧
    some (100 : ℚ) ∈
      sideKeys [{ strikePrice := .num 100, openInterest := .num 0 },
                { strikePrice := .bad, openInterest := .num 5 }] :=
  ⟨by decide, by decide, by decide, by decide, by decide⟩

/-- C4 counterexample: the claim says the sentinel is reported if and only
if the call-side sum is exactly 0, but the code tests `total > 0`: a
(coercible) negative openInterest of -5 yields the sentinel although the
sum is -5 ≠ 0. -/
theorem pcr_oi_sentinel_cex :
    pcr_oi [{ strikePrice := .num 100, openInterest := .num (-5) }] [] =
      .notAvailable ∧
    total_call_oi [{ strikePrice := .num 100, openInterest := .num (-5) }] [] ≠ 0 := by
  have hoi : oi_by_strike
      [{ strikePrice := .num 100, openInterest := .num (-5) }] [] =
      [(100, -5, 0)] := by decide
  have ht : total_call_oi
      [{ strikePrice := .num 100, openInterest := .num (-5) }] [] = -5 := by
    rw [total_call_oi, hoi]
    simp
  constructor
  · rw [pcr_oi, ht]
    rw [if_neg (by norm_num)]
  · rw [ht]
    norm_num

/-- C4 amended: the put-call ratio equals sum(putOI)/sum(callOI) whenever
the call-side sum is strictly positive, and the distinguishable sentinel is
reported if and only if the call-side sum is NOT positive (the code's guard
is `total > 0`, not `total != 0`). -/
theorem pcr_oi_sentinel_iff_nonpos (calls puts : List OiInRow) :
    (pcr_oi calls puts = .notAvailable ↔ total_call_oi calls puts ≤ 0) ∧
    (0 < total_call_oi calls puts →
      pcr_oi calls puts =
        .val (total_put_oi calls puts / total_call_oi calls puts)) := by
  constructor
  · rw [pcr_oi]
    split_ifs with h
    · simp [not_le.mpr h]
    · simp [le_of_not_lt h]
  · intro h
    rw [pcr_oi, if_pos h]

/-- Witness for `pcr_oi_sentinel_iff_nonpos`: total call OI 4, total put
OI 8, ratio 2. -/
theorem pcr_oi_sentinel_iff_nonpos_witness :
    pcr_oi [{ strikePrice := .num 100, openInterest := .num 4 }]
           [{ strikePrice := .num 100, openInterest := .num 8 }] = .val 2 := by
  have hoi : oi_by_strike [{ strikePrice := .num 100, openInterest := .num 4 }]
      [{ strikePrice := .num 100, openInterest := .num 8 }] = [(100, 4, 8)] := by
    decide
  have hc : total_call_oi [{ strikePrice := .num 100, openInterest := .num 4 }]
      [{ strikePrice := .num 100, openInterest := .num 8 }] = 4 := by
    rw [total_call_oi, hoi]
    simp
  have hp : total_put_oi [{ strikePrice := .num 100, openInterest := .num 4 }]
      [{ strikePrice := .num 100, openInterest := .num 8 }] = 8 := by
    rw [total_put_oi, hoi]
    simp
  have h2 := (pcr_oi_sentinel_iff_nonpos
    [{ strikePrice := .num 100, openInterest := .num 4 }]
    [{ strikePrice := .num 100, openInterest := .num 8 }]).2 (by rw [hc]; norm_num)
  rw [h2, hc, hp]
  norm_num

theorem any_key_eq (L : List (Option ℚ × ℚ)) (k : Option ℚ) :
    (L.any fun l => decide (l.1 = k)) = decide (k ∈ L.map fun l => l.1) := by
  induction L with
  | nil => simp
  | cons a t ih =>
    simp only [List.any_cons, List.map_cons, List.mem_cons, ih]
    by_cases h : a.1 = k
    · subst h
      simp
    · have h2 : ¬(k = a.1) := fun hh => h hh.symm
      simp [h, h2]

theorem filter_key_eq_nil (R : List (Option ℚ × ℚ)) (k : Option ℚ)
    (h : k ∉ R.map fun r => r.1) :
    (R.filter fun r => decide (r.1 = k)) = [] := by
  rw [List.filter_eq_nil_iff]
  intro r hr
  simp only [decide_eq_true_eq]
  intro hk
  exact h (by rw [← hk]; exact List.mem_map.mpr ⟨r, hr, rfl⟩)

theorem filter_key_len_le_one (R : List (Option ℚ × ℚ))
    (hR : (R.map fun r => r.1).Nodup) (k : Option ℚ) :
    (R.filter fun r => decide (r.1 = k)).length ≤ 1 := by
  induction R with
  | nil => simp
  | cons a t ih =>
    rw [List.map_cons, List.nodup_cons] at hR
    rw [List.filter_cons]
    by_cases h : a.1 = k
    · rw [if_pos (by simp [h])]
      rw [filter_key_eq_nil t k (by rw [← h]; exact hR.1)]
      simp
    · rw [if_neg (by simp [h])]
      exact ih hR.2

theorem filter_key_eq_singleton :
    ∀ R : List (Option ℚ × ℚ), ((R.map fun r => r.1).Nodup) →
      ∀ r : Option ℚ × ℚ, r ∈ R →
      (R.filter fun x => decide (x.1 = r.1)) = [r]
  | [], _, r, hr => by cases hr
  | a :: t, hR, r, hr => by
    rw [List.map_cons, List.nodup_cons] at hR
    rcases List.mem_cons.mp hr with rfl | hrt
    · rw [List.filter_cons, if_pos (by simp)]
      rw [filter_key_eq_nil t r.1 hR.1]
    · have hne : ¬(a.1 = r.1) := fun he =>
        hR.1 (by rw [he]; exact List.mem_map.mpr ⟨r, hrt, rfl⟩)
      rw [List.filter_cons, if_neg (by simp [hne])]
      exact filter_key_eq_singleton t hR.2 r hrt

theorem find?_key_of_mem :
    ∀ R : List (Option ℚ × ℚ), ((R.map fun r => r.1).Nodup) →
      ∀ r : Option ℚ × ℚ, r ∈ R →
      (R.find? fun x => decide (x.1 = r.1)) = some r
  | [], _, r, hr => by cases hr
  | a :: t, hR, r, hr => by
    rw [List.map_cons, List.nodup_cons] at hR
    rcases List.mem_cons.mp hr with rfl | hrt
    · exact List.find?_cons_of_pos _ (by simp)
    · have hne : ¬(a.1 = r.1) := fun he =>
        hR.1 (by rw [he]; exact List.mem_map.mpr ⟨r, hrt, rfl⟩)
      rw [List.find?_cons_of_neg _ (by simp [hne])]
      exact find?_key_of_mem t hR.2 r hrt

theorem find?_key_of_not_mem (L : List (Option ℚ × ℚ)) (k : Option ℚ)
    (h : k ∉ L.map fun l => l.1) :
    (L.find? fun x => decide (x.1 = k)) = none := by
  rw [List.find?_eq_none]
  intro x hx
  simp only [decide_eq_true_eq]
  intro hk
  exact h (by rw [← hk]; exact List.mem_map.mpr ⟨x, hx, rfl⟩)

theorem mergeOuter_length (L R : List (Option ℚ × ℚ))
    (hR : (R.map fun r => r.1).Nodup) :
    (mergeOuter L R).length =
      L.length + (R.filter fun r => !(L.any fun l => decide (l.1 = r.1))).length := by
  rw [mergeOuter, List.length_append]
  congr 1
  · induction L with
    | nil => rfl
    | cons a t ih =>
      simp only [List.flatMap_cons, List.length_append]
      rw [ih]
      cases hf : R.filter fun r => decide (r.1 = a.1) with
      | nil =>
        show ([(a.1, some a.2, none)]).length + t.length = (a :: t).length
        simp only [List.length_cons, List.length_nil]
        omega
      | cons m ms =>
        have hle := filter_key_len_le_one R hR a.1
        rw [hf] at hle
        have hms : ms = [] := by
          rw [List.length_cons] at hle
          exact List.length_eq_zero.mp (by omega)
        subst hms
        show (([m].map fun r => (a.1, some a.2, some r.2))).length + t.length =
          (a :: t).length
        simp only [List.length_map, List.length_cons, List.length_nil]
        omega
  · rw [List.length_map]

theorem mergeOuter_mem (L R : List (Option ℚ × ℚ))
    (hL : (L.map fun l => l.1).Nodup) (hR : (R.map fun r => r.1).Nodup)
    (t : Option ℚ × Option ℚ × Option ℚ) (ht : t ∈ mergeOuter L R) :
    ∃ k, (k ∈ L.map (fun l => l.1) ∨ k ∈ R.map fun r => r.1) ∧
      t = (k, (L.find? fun x => decide (x.1 = k)).map (fun x => x.2),
              (R.find? fun x => decide (x.1 = k)).map fun x => x.2) := by
  rw [mergeOuter, List.mem_append] at ht
  rcases ht with ht | ht
  · rw [List.mem_flatMap] at ht
    obtain ⟨l, hl, hblock⟩ := ht
    refine ⟨l.1, Or.inl (List.mem_map.mpr ⟨l, hl, rfl⟩), ?_⟩
    have hfindL : (L.find? fun x => decide (x.1 = l.1)) = some l :=
      find?_key_of_mem L hL l hl
    cases hf : R.filter fun r => decide (r.1 = l.1) with
    | nil =>
      rw [hf] at hblock
      have ht1 : t = (l.1, some l.2, none) := by simpa using hblock
      have hfindR : (R.find? fun x => decide (x.1 = l.1)) = none := by
        rw [List.find?_eq_none]
        exact List.filter_eq_nil_iff.mp hf
      rw [ht1, hfindL, hfindR]
      rfl
    | cons m ms =>
      rw [hf] at hblock
      obtain ⟨r, hrmem, hteq⟩ := List.mem_map.mp hblock
      have hrfil : r ∈ R.filter fun x => decide (x.1 = l.1) := by
        rw [hf]; exact hrmem
      have hrR := List.mem_filter.mp hrfil
      have hr1 : r.1 = l.1 := of_decide_eq_true hrR.2
      have hfindR : (R.find? fun x => decide (x.1 = l.1)) = some r := by
        have hh := find?_key_of_mem R hR r hrR.1
        rw [hr1] at hh
        exact hh
      rw [← hteq, hfindL, hfindR]
      rfl
  · obtain ⟨r, hrmem, hteq⟩ := List.mem_map.mp ht
    have hrR := List.mem_filter.mp hrmem
    have hnotin : r.1 ∉ L.map fun l => l.1 := by
      have h2 := hrR.2
      rw [Bool.not_eq_true', any_key_eq] at h2
      exact of_decide_eq_false h2
    refine ⟨r.1, Or.inr (List.mem_map.mpr ⟨r, hrR.1, rfl⟩), ?_⟩
    rw [← hteq, find?_key_of_not_mem L r.1 hnotin, find?_key_of_mem R hR r hrR.1]
    rfl

theorem mergeOuter_covers (L R : List (Option ℚ × ℚ))
    (hL : (L.map fun l => l.1).Nodup) (hR : (R.map fun r => r.1).Nodup)
    (k : Option ℚ)
    (hk : k ∈ L.map (fun l => l.1) ∨ k ∈ R.map fun r => r.1) :
    (k, (L.find? fun x => decide (x.1 = k)).map (fun x => x.2),
        (R.find? fun x => decide (x.1 = k)).map fun x => x.2) ∈ mergeOuter L R := by
  rw [mergeOuter, List.mem_append]
  by_cases hkL : k ∈ L.map fun l => l.1
  · left
    obtain ⟨l, hl, hleq⟩ := List.mem_map.mp hkL
    subst hleq
    rw [List.mem_flatMap]
    refine ⟨l, hl, ?_⟩
    rw [find?_key_of_mem L hL l hl]
    cases hf : R.filter fun r => decide (r.1 = l.1) with
    | nil =>
      have hfindR : (R.find? fun x => decide (x.1 = l.1)) = none := by
        rw [List.find?_eq_none]
        exact List.filter_eq_nil_iff.mp hf
      rw [hfindR]
      simp
    | cons m ms =>
      have hmfil : m ∈ R.filter fun x => decide (x.1 = l.1) := by
        rw [hf]; exact List.mem_cons_self m ms
      have hmR := List.mem_filter.mp hmfil
      have hm1 : m.1 = l.1 := of_decide_eq_true hmR.2
      have hfindR : (R.find? fun x => decide (x.1 = l.1)) = some m := by
        have hh := find?_key_of_mem R hR m hmR.1
        rw [hm1] at hh
        exact hh
      rw [hfindR]
      rw [List.mem_map]
      exact ⟨m, List.mem_cons_self m ms, rfl⟩
  · right
    rcases hk with hkL' | hkR
    · exact absurd hkL' hkL
    obtain ⟨r, hr, hreq⟩ := List.mem_map.mp hkR
    subst hreq
    rw [find?_key_of_not_mem L r.1 hkL, find?_key_of_mem R hR r hr]
    rw [List.mem_map]
    refine ⟨r, ?_, rfl⟩
    rw [List.mem_filter]
    refine ⟨hr, ?_⟩
    rw [Bool.not_eq_true', any_key_eq]
    exact decide_eq_false hkL

/-- C3 amended: for call/put inputs whose coerced strike keys are
duplicate-free on each side, the outer join produces exactly one output row
per distinct coerced strike key appearing in either input (row count equals
the cardinality of the key union), each row's callOI (resp. putOI) equals
the openInterest recorded on that side for its key — hence 0 whenever the
key is absent from that side (never null, never dropped), though also 0
when the recorded openInterest is 0 or uncoercible — and the rows are
sorted ascending by strike.  Rows with an unparseable strike are NOT
excluded: the `NaN` key is joined like any other key and the resulting
row's strike is filled with 0 by `.fillna(0)`. -/
theorem oi_by_strike_outer_join (calls puts : List OiInRow)
    (hL : (sideKeys calls).Nodup) (hR : (sideKeys puts).Nodup) :
    (oi_by_strike calls puts).length =
      (sideKeys calls ++ sideKeys puts).toFinset.card ∧
    List.Pairwise rowLE (oi_by_strike calls puts) ∧
    (∀ t ∈ oi_by_strike calls puts,
      ∃ k, (k ∈ sideKeys calls ∨ k ∈ sideKeys puts) ∧
        t = (k.getD 0, lookupOI (prepSide calls) k, lookupOI (prepSide puts) k)) ∧
    (∀ k : Option ℚ, (k ∈ sideKeys calls ∨ k ∈ sideKeys puts) →
      (k.getD 0, lookupOI (prepSide calls) k, lookupOI (prepSide puts) k) ∈
        oi_by_strike calls puts) := by
  have hLk : ((prepSide calls).map fun l => l.1).Nodup := hL
  have hRk : ((prepSide puts).map fun r => r.1).Nodup := hR
  refine ⟨?_, ?_, ?_, ?_⟩
  · rw [oi_by_strike, List.length_insertionSort, List.length_map]
    rw [mergeOuter_length _ _ hRk]
    have hfilt : ((prepSide puts).filter fun r =>
          !((prepSide calls).any fun l => decide (l.1 = r.1))).length =
        (((prepSide puts).map fun r => r.1).filter fun k =>
          !decide (k ∈ (prepSide calls).map fun l => l.1)).length := by
      rw [← List.countP_eq_length_filter, ← List.countP_eq_length_filter,
        List.countP_map]
      exact List.countP_congr fun x _ => by
        simp only [Function.comp_apply]
        rw [any_key_eq]
    rw [hfilt]
    have hLlen : (prepSide calls).length =
        ((prepSide calls).map fun l => l.1).toFinset.card := by
      rw [List.toFinset_card_of_nodup hLk, List.length_map]
    rw [hLlen]
    have hset : (((prepSide puts).map fun r => r.1).filter fun k =>
          !decide (k ∈ (prepSide calls).map fun l => l.1)).toFinset =
        ((prepSide puts).map fun r => r.1).toFinset \
          ((prepSide calls).map fun l => l.1).toFinset := by
      ext a
      simp
    have hflen : (((prepSide puts).map fun r => r.1).filter fun k =>
          !decide (k ∈ (prepSide calls).map fun l => l.1)).length =
        (((prepSide puts).map fun r => r.1).toFinset \
          ((prepSide calls).map fun l => l.1).toFinset).card := by
      rw [← hset, List.toFinset_card_of_nodup (hRk.filter _)]
    rw [hflen]
    rw [List.toFinset_append, add_comm, Finset.card_sdiff_add_card,
      Finset.union_comm]
    rfl
  · exact List.sorted_insertionSort rowLE _
  · intro t ht
    rw [oi_by_strike, List.mem_insertionSort] at ht
    obtain ⟨m, hm, hfm⟩ := List.mem_map.mp ht
    obtain ⟨k, hk, hmk⟩ := mergeOuter_mem _ _ hLk hRk m hm
    refine ⟨k, hk, ?_⟩
    rw [← hfm, hmk]
    rfl
  · intro k hk
    rw [oi_by_strike, List.mem_insertionSort, List.mem_map]
    refine ⟨_, mergeOuter_covers _ _ hLk hRk k hk, ?_⟩
    rfl

/-- Witness for `oi_by_strike_outer_join` at concrete inputs: the row count
equals the number of distinct strikes, and the join/fill/sort produce the
expected table. -/
theorem oi_by_strike_outer_join_witness :
    (oi_by_strike [{ strikePrice := .num 100, openInterest := .num 10 },
                   { strikePrice := .num 105, openInterest := .num 0 }]
                  [{ strikePrice := .num 95, openInterest := .num 7 },
                   { strikePrice := .num 100, openInterest := .num 3 }]).length =
      (sideKeys [{ strikePrice := .num 100, openInterest := .num 10 },
                 { strikePrice := .num 105, openInterest := .num 0 }] ++
       sideKeys [{ strikePrice := .num 95, openInterest := .num 7 },
                 { strikePrice := .num 100, openInterest := .num 3 }]).toFinset.card ∧
    oi_by_strike [{ strikePrice := .num 100, openInterest := .num 10 },
                  { strikePrice := .num 105, openInterest := .num 0 }]
                 [{ strikePrice := .num 95, openInterest := .num 7 },
                  { strikePrice := .num 100, openInterest := .num 3 }] =
      [(95, 0, 7), (100, 10, 3), (105, 0, 0)] :=
  ⟨(oi_by_strike_outer_join _ _ (by decide) (by decide)).1, by decide⟩

/-- spaCy `token.is_alpha` (ASCII scope): nonempty and all letters. -/
def isAlphaTok (t : String) : Bool :=
  !t.toList.isEmpty && t.toList.all Char.isAlpha

/-- Python `str.isupper` (ASCII scope): at least one cased character and no
lowercase character. -/
def pyIsUpper (t : String) : Bool :=
  (t.toList.any fun c => c.isUpper || c.isLower) && !t.toList.any Char.isLower

/-- The ticker-collecting loop of `extract_tickers` (nlp_parser.py lines
22-24): a token qualifies iff it is upper-case, alphabetic and of length 2
to 5; qualifying tokens are added to a set, modelled as an
append-if-absent list (membership and cardinality are faithful; Python set
iteration order is unspecified). -/
def scanUpper (tokens : List String) : List String :=
  tokens.foldl (fun acc t =>
    if pyIsUpper t && isAlphaTok t && decide (1 < t.length) &&
       decide (t.length ≤ 5) && !decide (t ∈ acc)
    then acc ++ [t] else acc) []

/-- Embedding of `extract_tickers` (nlp_parser.py): the second fallback scan
(lines 43-46) repeats the identical loop when the first found nothing.  The
tokenizer itself is the external collaborator; its output token texts are
the input. -/
def extract_tickers (tokens : List String) : List String :=
  let tickers := scanUpper tokens
  if tickers.isEmpty then scanUpper tokens else tickers

/-- A regex word character (`\w`, ASCII scope). -/
def wordChar (c : Char) : Bool := c.isAlphanum || c = '_'

/-- A regex word boundary (`\b`) directly after a word character: the next
position is the end of input or a non-word character. -/
def wordBoundAfter (cs : List Char) : Bool :=
  match cs with
  | [] => true
  | c :: _ => !wordChar c

/-- Does one of the alternation's unit words match at this position, with a
word boundary after it?  (Python's `|` tries alternatives left to right;
for these unit sets the first boundary-respecting match is the only one.) -/
def unitMatch (units : List (List Char)) (cs : List Char) : Bool :=
  units.any fun u => u.isPrefixOf cs && wordBoundAfter (cs.drop u.length)

/-- Model of `re.search(r"(\d+)\s*(unit₁|unit₂|...)\b", text)`: scan left to right
for a digit run followed (after optional whitespace) by a unit word with a
word boundary; return the matched digit group verbatim.  A shorter `\d+`
match cannot succeed where the maximal one fails, since the units start
with letters. -/
def findNumUnit (units : List (List Char)) : List Char → Option (List Char)
  | [] => none
  | c :: rest =>
    if c.isDigit then
      if unitMatch units (((c :: rest).dropWhile Char.isDigit).dropWhile isWSChar)
      then some ((c :: rest).takeWhile Char.isDigit)
      else findNumUnit units rest
    else findNumUnit units rest

/-- Embedding of `extract_period` (nlp_parser.py lines 49-84): the rules in
their fixed priority order; `none` when no rule matched.  The digit group
is kept verbatim (`f"{match.group(1)}mo"`). -/
def extract_period (text : String) : Option String :=
  if containsSub (pyLower text.toList) "year to date".toList ||
     containsSub (pyLower text.toList) "ytd".toList then some "ytd"
  else
    match findNumUnit ["month".toList, "months".toList, "mo".toList]
        (pyLower text.toList) with
    | some n => some (String.mk n ++ "mo")
    | none =>
      match findNumUnit ["year".toList, "years".toList, "yr".toList, "y".toList]
          (pyLower text.toList) with
      | some n => some (String.mk n ++ "y")
      | none =>
        match findNumUnit ["day".toList, "days".toList, "d".toList]
            (pyLower text.toList) with
        | some n => some (String.mk n ++ "d")
        | none =>
          if containsSub (pyLower text.toList) "last month".toList ||
             containsSub (pyLower text.toList) "past month".toList then some "1mo"
          else if containsSub (pyLower text.toList) "last six months".toList ||
                  containsSub (pyLower text.toList) "past six months".toList then
            some "6mo"
          else if containsSub (pyLower text.toList) "last year".toList ||
                  containsSub (pyLower text.toList) "past year".toList then some "1y"
          else if containsSub (pyLower text.toList) "max".toList ||
                  containsSub (pyLower text.toList) "all time".toList then some "max"
          else none

/-- Embedding of `extract_intent` (nlp_parser.py lines 86-97):
case-insensitive substring tests, first match wins. -/
def extract_intent (text : String) : String :=
  if containsSub (pyLower text.toList) "compare".toList ||
     containsSub (pyLower text.toList) "vs".toList ||
     containsSub (pyLower text.toList) "versus".toList then "compare"
  else if containsSub (pyLower text.toList) "trend".toList ||
          containsSub (pyLower text.toList) "performance".toList ||
          containsSub (pyLower text.toList) "history".toList ||
          containsSub (pyLower text.toList) "historical".toList then "trend"
  else if containsSub (pyLower text.toList) "price".toList ||
          containsSub (pyLower text.toList) "value".toList ||
          containsSub (pyLower text.toList) "current stock price".toList then "price"
  else "unknown"

/-- The fully populated result of `parse_query`. -/
structure ParsedQuery where
  tickers : List String
  period : String
  intent : String
deriving DecidableEq

/-- Embedding of `parse_query` (nlp_parser.py lines 99-122): the three
independent extractions, then the composition policy — default the period
to "1y" when unset, downgrade a 'compare' intent with at most one ticker to
'trend'.  `tok` is the external tokenizer collaborator. -/
def parse_query (tok : String → List String) (query_text : String) : ParsedQuery :=
  let tickers := extract_tickers (tok query_text)
  let period := extract_period query_text
  let intent := extract_intent query_text
  let period2 := match period with
    | none => "1y"
    | some p => p
  let intent2 := if intent = "compare" ∧ tickers.length ≤ 1 then "trend" else intent
  { tickers := tickers, period := period2, intent := intent2 }

/-- C9: `parse_query` is total over all tokenizations and input strings (a
Lean function) and always returns a fully populated result: tickers exactly
as extracted; the period as extracted, defaulting to "1y" when no period
rule matched; the intent as extracted, except that 'compare' with fewer
than 2 tickers is downgraded to 'trend' — so a 'compare' result always
carries at least 2 tickers. -/
theorem parse_query_total_policy (tok : String → List String) (text : String) :
    (parse_query tok text).tickers = extract_tickers (tok text) ∧
    ((extract_period text = none → (parse_query tok text).period = "1y") ∧
     (∀ p, extract_period text = some p → (parse_query tok text).period = p)) ∧
    ((parse_query tok text).intent = "compare" →
      2 ≤ (parse_query tok text).tickers.length) ∧
    (extract_intent text = "compare" →
      (extract_tickers (tok text)).length ≤ 1 →
      (parse_query tok text).intent = "trend") ∧
    (extract_intent text ≠ "compare" ∨ 2 ≤ (extract_tickers (tok text)).length →
      (parse_query tok text).intent = extract_intent text) := by
  refine ⟨rfl, ⟨?_, ?_⟩, ?_, ?_, ?_⟩
  · intro h
    simp [parse_query, h]
  · intro p h
    simp [parse_query, h]
  · intro h
    by_cases hc : extract_intent text = "compare" ∧
        (extract_tickers (tok text)).length ≤ 1
    · simp only [parse_query, if_pos hc] at h
      exact absurd h (by decide)
    · simp only [parse_query, if_neg hc] at h ⊢
      have h2 : ¬((extract_tickers (tok text)).length ≤ 1) := fun hle =>
        hc ⟨h, hle⟩
      omega
  · intro hE hlen
    simp [parse_query, hE, hlen]
  · intro h
    rcases h with hne | h2
    · have hc : ¬(extract_intent text = "compare" ∧
          (extract_tickers (tok text)).length ≤ 1) := fun hx => hne hx.1
      simp only [parse_query, if_neg hc]
    · have hc : ¬(extract_intent text = "compare" ∧
          (extract_tickers (tok text)).length ≤ 1) := fun hx => by omega
      simp only [parse_query, if_neg hc]

/-- Witness for `parse_query_total_policy`: "compare AAPL" with a tokenizer
yielding one ticker — the period defaults to "1y" and the 'compare' intent
is downgraded to 'trend'. -/
theorem parse_query_total_policy_witness :
    (parse_query (fun _ => ["AAPL"]) "compare AAPL").period = "1y" ∧
    (parse_query (fun _ => ["AAPL"]) "compare AAPL").intent = "trend" :=
  ⟨(parse_query_total_policy (fun _ => ["AAPL"]) "compare AAPL").2.1.1 (by decide),
   (parse_query_total_policy (fun _ => ["AAPL"]) "compare AAPL").2.2.2.1
     (by decide) (by decide)⟩
